import Mathlib

set_option linter.unusedVariables false
set_option linter.unreachableTactic false
set_option linter.unusedTactic false

/-!
Verification of scripts/dist/setup.py.

The script reads the key VERSION_NAME from gradle.properties (located two
directory levels above the script's own resolved location) with Python's
configparser, then calls setuptools.setup with that version and fixed
literal metadata.  We embed, over lists of characters:

* the configparser 3.x line reader (RawConfigParser._read) with its default
  configuration as used by the script: delimiters = and :, full-line comment
  markers # and ;, no inline comments, strict=True, empty_lines_in_values=True,
  allow_no_value=False, optionxform=str.lower, default section DEFAULT;
* value joining (_join_multiline_values) and the item lookup
  config[section][option] including BasicInterpolation.before_get;
* the anchored path computation dirname(realpath(script)) + /../../gradle.properties;
* the setup(...) call as a pure record builder.

Whitespace and lowercasing are modelled on the ASCII range, which covers
every character the script and its properties file use.
-/

namespace Stetho

abbrev Line := List Char

/-- Python str.strip() / regex whitespace, ASCII range. -/
def pySpace (c : Char) : Bool :=
  c = ' ' || c = '\t' || c = '\n' || c = '\r' || c = Char.ofNat 11 || c = Char.ofNat 12

def lstripChars (l : Line) : Line := l.dropWhile pySpace

def rstripChars (l : Line) : Line := (l.reverse.dropWhile pySpace).reverse

def stripChars (l : Line) : Line := rstripChars (lstripChars l)

/-- optionxform = str.lower (ASCII range). -/
def toLowerL (l : Line) : Line := l.map Char.toLower

/-- The default key/value delimiters of configparser. -/
def isDelim (c : Char) : Bool := c = '=' || c = ':'

/-- A full-line comment: the stripped line starts with # or ;. -/
def isCommentLine (line : Line) : Bool :=
  match stripChars line with
  | c :: _ => c = '#' || c = ';'
  | [] => false

/-- The stripped payload of a line: `value = line[:comment_start].strip()`
with comment_start = 0 for a full-line comment and None otherwise (no
inline comment markers). -/
def lineValue (line : Line) : Line :=
  if isCommentLine line then [] else stripChars line

/-- cur_indent_level: index of the first non-whitespace character of the raw
line (0 when the line is all whitespace). -/
def curIndent (line : Line) : Nat :=
  match line.findIdx? (fun c => !pySpace c) with
  | some i => i
  | none => 0

/-- Index of the last closing bracket of a line, if any. -/
def lastCloseIdx (l : Line) : Option Nat :=
  match l.reverse.findIdx? (fun c => c = ']') with
  | some j => some (l.length - 1 - j)
  | none => none

/-- SECTCRE match on the stripped line: an opening bracket, a greedy
nonempty header (running to the last closing bracket), a closing bracket;
anything after the last closing bracket is ignored. -/
def sectHeader? (v : Line) : Option Line :=
  match v with
  | [] => none
  | c :: rest =>
    if c = '[' then
      match lastCloseIdx rest with
      | some p => if 0 < p then some (rest.take p) else none
      | none => none
    else none

/-- OPTCRE match on the stripped line: split at the first delimiter; the raw
option text is everything before it, the value is the rest with leading
whitespace removed.  None when the line holds no delimiter. -/
def splitOpt : Line → Option (Line × Line)
  | [] => none
  | c :: rest =>
    if isDelim c then some ([], lstripChars rest)
    else
      match splitOpt rest with
      | some (o, v) => some (c :: o, v)
      | none => none

/-- Ordered association list keyed by option/section name, mirroring the
insertion-ordered dicts of configparser. -/
def alookup {β : Type} : List (Line × β) → Line → Option β
  | [], _ => none
  | (k, v) :: rest, key => if k = key then some v else alookup rest key

/-- Dict assignment: replace in place, or append a fresh key at the end. -/
def aset {β : Type} : List (Line × β) → Line → β → List (Line × β)
  | [], key, v => [(key, v)]
  | (k, w) :: rest, key, v =>
    if k = key then (key, v) :: rest else (k, w) :: aset rest key v

/-- Pending multiline option values: each option maps to the list of
physical value lines collected so far. -/
abbrev RawOptions := List (Line × List Line)

/-- Append of `cursect[optname].append(value)` for a continuation or blank
line. -/
def aappendAt : RawOptions → Line → Line → RawOptions
  | [], _, _ => []
  | (k, vs) :: rest, key, v =>
    if k = key then (k, vs ++ [v]) :: rest else (k, vs) :: aappendAt rest key v

inductive CPError where
  | fileNotFound
  | missingSectionHeader
  | duplicateSection
  | duplicateOption
  | parsingError
  | keyError
  | interpolationSyntax
  | interpolationMissingOption
  | interpolationDepth
deriving DecidableEq

/-- The state of RawConfigParser._read between lines. -/
structure RState where
  sections : List (Line × RawOptions)
  defaults : RawOptions
  cursect : Option Line
  optname : Option Line
  indentLevel : Nat
  errored : Bool
deriving DecidableEq

def DEFAULTSECT : Line := "DEFAULT".toList

/-- The dict the name `cursect` refers to: the defaults for the DEFAULT
section, otherwise the named section's options. -/
def stOpts (st : RState) (sect : Line) : RawOptions :=
  if sect = DEFAULTSECT then st.defaults
  else (alookup st.sections sect).getD []

def stPutOpts (st : RState) (sect : Line) (opts : RawOptions) : RState :=
  if sect = DEFAULTSECT then { st with defaults := opts }
  else { st with sections := aset st.sections sect opts }

/-- An option line inside section `sect`: split at the first delimiter,
flag an empty option name as a (deferred) parsing error, lowercase the
name, raise DuplicateOptionError when the strict check trips, then store
the stripped value as a fresh one-element value list. -/
def readOptionLine (st : RState) (sect : Line) (value : Line) : Except CPError RState :=
  match splitOpt value with
  | some (o, v) =>
    let key := toLowerL (rstripChars o)
    if (alookup (stOpts st sect) key).isSome then .error .duplicateOption
    else
      let st' := stPutOpts st sect (aset (stOpts st sect) key [stripChars v])
      .ok { st' with optname := some key, errored := st.errored || o.isEmpty }
  | none => .ok { st with errored := true }

/-- A non-blank, non-continuation line: a section header, or an option line
(MissingSectionHeaderError when no section is open). -/
def readNonBlank (st : RState) (value : Line) : Except CPError RState :=
  match sectHeader? value with
  | some h =>
    if (alookup st.sections h).isSome then .error .duplicateSection
    else if h = DEFAULTSECT then
      .ok { st with cursect := some DEFAULTSECT, optname := none }
    else
      .ok { st with sections := st.sections ++ [(h, [])],
                    cursect := some h, optname := none }
  | none =>
    match st.cursect with
    | none => .error .missingSectionHeader
    | some sect => readOptionLine st sect value

/-- One iteration of the line loop of RawConfigParser._read. -/
def readLine (st : RState) (line : Line) : Except CPError RState :=
  let value := lineValue line
  if value.isEmpty then
    match st.cursect, st.optname with
    | some sect, some o =>
      if !isCommentLine line && !o.isEmpty then .ok (stPutOpts st sect (aappendAt (stOpts st sect) o []))
      else .ok st
    | _, _ => .ok st
  else
    let ci := curIndent line
    match st.cursect, st.optname with
    | some sect, some o =>
      if !o.isEmpty && decide (st.indentLevel < ci) then
        .ok (stPutOpts st sect (aappendAt (stOpts st sect) o value))
      else readNonBlank { st with indentLevel := ci } value
    | _, _ => readNonBlank { st with indentLevel := ci } value

def readLines : RState → List Line → Except CPError RState
  | st, [] => .ok st
  | st, l :: rest =>
    match readLine st l with
    | .ok st' => readLines st' rest
    | .error e => .error e

/-- A parsed configuration after _join_multiline_values. -/
structure Config where
  sections : List (Line × List (Line × Line))
  defaults : List (Line × Line)
deriving DecidableEq

/-- Value joining: newline-join the collected lines, then rstrip. -/
def joinVal (vs : List Line) : Line := rstripChars (List.intercalate ['\n'] vs)

def joinOpts (opts : RawOptions) : List (Line × Line) :=
  opts.map (fun p => (p.1, joinVal p.2))

def initState : RState := ⟨[], [], none, none, 0, false⟩

/-- read_file on a fresh parser: run the line loop, join the collected
value lines, and raise the deferred ParsingError if any line was bogus. -/
def readFileLines (fileLines : List Line) : Except CPError Config :=
  match readLines initState fileLines with
  | .error e => .error e
  | .ok st =>
    if st.errored then .error .parsingError
    else .ok ⟨st.sections.map (fun p => (p.1, joinOpts p.2)), joinOpts st.defaults⟩

/-- The lookup chain of _unify_values: vars (empty) then the section dict
then the defaults. -/
def chainLookup (cfg : Config) (sect key : Line) : Option Line :=
  match alookup ((alookup cfg.sections sect).getD []) key with
  | some v => some v
  | none => alookup cfg.defaults key

def hasPercent (l : Line) : Bool := l.any (fun c => c = '%')

/-- BasicInterpolation._interpolate_some.  `fuel` counts the nested
expansions still allowed before InterpolationDepthError
(MAX_INTERPOLATION_DEPTH = 10, entered at depth 1, hence 9 at the top). -/
def interpolate (look : Line → Option Line) : Nat → Line → Except CPError Line
  | _, [] => .ok []
  | fuel, c :: rest =>
    if c = '%' then
      match rest with
      | '%' :: r => (interpolate look fuel r).map (fun t => '%' :: t)
      | '(' :: r =>
        (let name := r.takeWhile (fun c => c ≠ ')')
         match hr : r.dropWhile (fun c => c ≠ ')') with
         | ')' :: 's' :: r2 =>
           if name.isEmpty then .error .interpolationSyntax
           else
             match look (toLowerL name) with
             | none => .error .interpolationMissingOption
             | some v =>
               if hasPercent v then
                 match fuel with
                 | 0 => .error .interpolationDepth
                 | fuel' + 1 =>
                   match interpolate look fuel' v with
                   | .error e => .error e
                   | .ok a =>
                     match interpolate look (fuel' + 1) r2 with
                     | .error e => .error e
                     | .ok b => .ok (a ++ b)
               else
                 match interpolate look fuel r2 with
                 | .error e => .error e
                 | .ok b => .ok (v ++ b)
         | _ => .error .interpolationSyntax)
      | _ => .error .interpolationSyntax
    else (interpolate look fuel rest).map (fun t => c :: t)
termination_by fuel l => (fuel, l.length)
decreasing_by
  all_goals simp_wf
  · exact Prod.Lex.right _ (by omega)
  · exact Prod.Lex.left _ _ (by omega)
  · have hle : ∀ (l : List Char), (List.dropWhile (fun c => decide (c ≠ ')')) l).length ≤ l.length := by
      intro l
      induction l with
      | nil => simp
      | cons a as ih =>
        rw [List.dropWhile_cons]
        split
        · exact Nat.le_trans ih (by rw [List.length_cons]; omega)
        · exact Nat.le_refl _
    have hl2 := hle r
    rw [hr] at hl2
    simp only [List.length_cons] at hl2
    exact Prod.Lex.right _ (by omega)
  · have hle : ∀ (l : List Char), (List.dropWhile (fun c => decide (c ≠ ')')) l).length ≤ l.length := by
      intro l
      induction l with
      | nil => simp
      | cons a as ih =>
        rw [List.dropWhile_cons]
        split
        · exact Nat.le_trans ih (by rw [List.length_cons]; omega)
        · exact Nat.le_refl _
    have hl2 := hle r
    rw [hr] at hl2
    simp only [List.length_cons] at hl2
    exact Prod.Lex.right _ (by omega)
  · exact Prod.Lex.right _ (by omega)

def MAXDEPTHFUEL : Nat := 9

/-- has_option(section, option) after optionxform. -/
def hasOpt (cfg : Config) (sect key : Line) : Bool :=
  if sect = DEFAULTSECT then (alookup cfg.defaults key).isSome
  else
    match alookup cfg.sections sect with
    | none => false
    | some opts => (alookup opts key).isSome || (alookup cfg.defaults key).isSome

/-- Item access `config[sect][opt]`: parser.__getitem__ (KeyError on a missing section
other than DEFAULT), SectionProxy.__getitem__ (KeyError when has_option is
false), then get with BasicInterpolation.before_get over the unified
lookup chain. -/
def sectionGet (cfg : Config) (sect opt : Line) : Except CPError Line :=
  if sect ≠ DEFAULTSECT ∧ alookup cfg.sections sect = none then .error .keyError
  else
    let key := toLowerL opt
    if hasOpt cfg sect key then
      match chainLookup cfg sect key with
      | some v => interpolate (chainLookup cfg sect) MAXDEPTHFUEL v
      | none => .error .keyError
    else .error .keyError

def propsHeader : Line := "[properties]".toList

def propsSection : Line := "properties".toList

def versionOpt : Line := "VERSION_NAME".toList

def versionKeyLower : Line := "version_name".toList

/-- read_version_name: the file either does not exist (FileNotFoundError
from open) or yields its list of physical lines; the parser consumes the
synthesized header line `[properties]` chained in front of the file, and
the result is config[properties][VERSION_NAME]. -/
def resolve (file : Option (List Line)) : Except CPError Line :=
  match file with
  | none => .error .fileNotFound
  | some fileLines =>
    match readFileLines (propsHeader :: fileLines) with
    | .error e => .error e
    | .ok cfg => sectionGet cfg propsSection versionOpt

/-- The metadata record handed to setuptools.setup. -/
structure PackageDescriptor where
  name : String
  packages : List String
  version : String
  description : String
  author : String
  author_email : String
  url : String
  keywords : List String
  classifiers : List String
  entry_points : List (String × List String)
deriving DecidableEq

/-- The setup(...) call of the script: the resolved version merged with
fixed literal metadata. -/
def build (version : String) : PackageDescriptor :=
  { name := "stetho"
  , packages := ["stetho"]
  , version := version
  , description := "Scripting interface for the Stetho Android debugging bridge"
  , author := "Josh Guilfoyle"
  , author_email := "jasta@devtcg.org"
  , url := "https://github.com/facebook/stetho"
  , keywords := ["debug", "dumpapp", "android"]
  , classifiers :=
      [ "Development Status :: 5 - Production/Stable"
      , "Intended Audience :: Developers"
      , "Topic :: Software Development :: Debuggers"
      , "Topic :: Software Development :: Testing" ]
  , entry_points := [("console_scripts", ["dumpapp=stetho:dumpapp_main"])] }

/-- The whole script: resolve the version, then hand the descriptor to the
packaging tool; any resolution error terminates the process before setup
runs. -/
def script (file : Option (List Line)) : Except CPError PackageDescriptor :=
  match resolve file with
  | .error e => .error e
  | .ok v => .ok (build (String.mk v))

/-- The filename `'%s/../../gradle.properties' % dirname(realpath(__file__))` as path
components.  `anchorDir` is the directory of the script's resolved
location; realpath output is canonical, so the computation never consults
the current working directory.  The unused `cwd` argument records that. -/
def propertiesPathFrom (cwd anchorDir : List String) : List String :=
  anchorDir ++ ["..", "..", "gradle.properties"]

/-- One component of POSIX path resolution on an absolute path: `..` pops a
component (staying at the root when there is none), `.` is dropped. -/
def pathStep (acc : List String) (c : String) : List String :=
  if c = ".." then acc.dropLast else if c = "." then acc else acc ++ [c]

/-- POSIX resolution of an absolute component list. -/
def normalizePath (comps : List String) : List String :=
  comps.foldl pathStep []

/-- An ASCII control character (the claim's exclusion set for version
strings). -/
def isControlChar (c : Char) : Prop := c.toNat < 32 ∨ c.toNat = 127

instance (c : Char) : Decidable (isControlChar c) := by
  unfold isControlChar; infer_instance

/-- The option name a line stores when the reader treats it as an option
line (lowercased, trailing whitespace removed); none for blank, comment,
section-header and delimiterless lines. -/
def lineAssignedKey (l : Line) : Option Line :=
  let v := lineValue l
  if v.isEmpty then none
  else if (sectHeader? v).isSome then none
  else
    match splitOpt v with
    | some (o, _) => some (toLowerL (rstripChars o))
    | none => none

/-- A character allowed in the option names our key/value lemmas quantify
over: printable, not whitespace, not a delimiter, and not one of the
markers that would make the line a section header or a comment. -/
def goodKeyChar (c : Char) : Prop :=
  pySpace c = false ∧ isDelim c = false ∧ c ≠ '[' ∧ c ≠ '#' ∧ c ≠ ';'

instance (c : Char) : Decidable (goodKeyChar c) := by
  unfold goodKeyChar; infer_instance

/-- No version_name entry is stored anywhere in the reader state: in no
section's options and not in the defaults. -/
def NoVK (st : RState) : Prop :=
  (∀ p ∈ st.sections, alookup p.2 versionKeyLower = none) ∧
  alookup st.defaults versionKeyLower = none

/-- A line at indentation 0 that is not blank, not a comment, not a section
header and holds no key/value delimiter: the reader's bogus-line case. -/
def badLine (l : Line) : Prop :=
  lineValue l ≠ [] ∧ curIndent l = 0 ∧
    sectHeader? (lineValue l) = none ∧ splitOpt (lineValue l) = none

instance (l : Line) : Decidable (badLine l) := by
  unfold badLine; infer_instance

instance {ε α : Type} [DecidableEq ε] [DecidableEq α] : DecidableEq (Except ε α) := fun a b =>
  match a, b with
  | .error e, .error f =>
    if h : e = f then isTrue (by rw [h]) else isFalse (fun hc => h (Except.error.inj hc))
  | .ok x, .ok y =>
    if h : x = y then isTrue (by rw [h]) else isFalse (fun hc => h (Except.ok.inj hc))
  | .error _, .ok _ => isFalse (fun hc => Except.noConfusion hc)
  | .ok _, .error _ => isFalse (fun hc => Except.noConfusion hc)

/-- The reader state right after consuming the synthesized header line
`[properties]`: one empty section is open and current. -/
def headerState : RState :=
  ⟨[(propsSection, [])], [], some propsSection, none, 0, false⟩

/-! ### Helper lemmas about stripping, splitting and association lists -/

theorem readLines_cons (st : RState) (l : Line) (rest : List Line) :
    readLines st (l :: rest) =
      match readLine st l with
      | .ok st' => readLines st' rest
      | .error e => .error e := rfl

theorem readLine_header : readLine initState propsHeader = .ok headerState := by
  decide

theorem dropWhile_of_all_neg {p : Char → Bool} {l : Line}
    (h : ∀ c ∈ l, p c = false) : l.dropWhile p = l := by
  induction l with
  | nil => rfl
  | cons c cs ih =>
    rw [List.dropWhile_cons, h c (by simp), if_neg (by simp)]

theorem lstrip_cons_of_nonspace {c : Char} (h : pySpace c = false) (l : Line) :
    lstripChars (c :: l) = c :: l := by
  simp [lstripChars, List.dropWhile_cons, h]

theorem lstrip_replicate_space_append (n : Nat) (l : Line) :
    lstripChars (List.replicate n ' ' ++ l) = lstripChars l := by
  simp [lstripChars, List.dropWhile_append, List.dropWhile_replicate, pySpace]

theorem rstrip_append (xs ys : Line) :
    rstripChars (xs ++ ys) =
      if rstripChars ys = [] then rstripChars xs else xs ++ rstripChars ys := by
  unfold rstripChars
  rw [List.reverse_append, List.dropWhile_append]
  rcases h : List.dropWhile pySpace ys.reverse with _ | ⟨c, t⟩
  · simp [h]
  · simp [h]

theorem rstrip_of_all_nonspace {l : Line} (h : ∀ c ∈ l, pySpace c = false) :
    rstripChars l = l := by
  unfold rstripChars
  rw [dropWhile_of_all_neg (fun c hc => h c (List.mem_reverse.mp hc)), List.reverse_reverse]

theorem rstrip_replicate_space (n : Nat) : rstripChars (List.replicate n ' ') = [] := by
  simp [rstripChars, List.dropWhile_replicate, pySpace]

theorem splitOpt_append_delim {key : Line} (hk : ∀ c ∈ key, isDelim c = false)
    {d : Char} (hd : isDelim d = true) (v : Line) :
    splitOpt (key ++ d :: v) = some (key, lstripChars v) := by
  induction key with
  | nil => simp [splitOpt, hd]
  | cons c cs ih =>
    have hc : isDelim c = false := hk c (by simp)
    simp [splitOpt, hc, ih (fun b hb => hk b (by simp [hb]))]

theorem splitOpt_none_of_no_delim {l : Line} (h : ∀ c ∈ l, isDelim c = false) :
    splitOpt l = none := by
  induction l with
  | nil => rfl
  | cons c cs ih =>
    have hc : isDelim c = false := h c (by simp)
    simp [splitOpt, hc, ih (fun b hb => h b (by simp [hb]))]

theorem alookup_aset {β : Type} (m : List (Line × β)) (k : Line) (v : β) (k' : Line) :
    alookup (aset m k v) k' = if k = k' then some v else alookup m k' := by
  induction m with
  | nil => by_cases h : k = k' <;> simp [aset, alookup, h]
  | cons p rest ih =>
    obtain ⟨a, b⟩ := p
    by_cases h1 : a = k
    · subst h1
      by_cases h2 : a = k' <;> simp [aset, alookup, h2]
    · by_cases h2 : a = k'
      · subst h2
        have hk : k ≠ a := fun h => h1 h.symm
        simp [aset, alookup, h1, hk]
      · simp [aset, alookup, h1, h2, ih]

theorem alookup_append {β : Type} (m₁ m₂ : List (Line × β)) (k : Line) :
    alookup (m₁ ++ m₂) k =
      match alookup m₁ k with
      | some v => some v
      | none => alookup m₂ k := by
  induction m₁ with
  | nil => simp [alookup]
  | cons p rest ih =>
    obtain ⟨a, b⟩ := p
    by_cases h : a = k <;> simp [alookup, h, ih]

theorem alookup_aappendAt_none {m : RawOptions} {o : Line} (v : Line) {k : Line}
    (h : alookup m k = none) : alookup (aappendAt m o v) k = none := by
  induction m with
  | nil => simp [aappendAt, alookup]
  | cons p rest ih =>
    obtain ⟨a, b⟩ := p
    by_cases ha : a = k
    · simp [alookup, ha] at h
    · have h' : alookup rest k = none := by simpa [alookup, ha] using h
      by_cases ho : a = o
      · subst ho
        simp [aappendAt, alookup, ha, h']
      · simp [aappendAt, alookup, ha, ho, ih h']

theorem alookup_aappendAt_isSome (m : RawOptions) (o v k : Line) :
    (alookup (aappendAt m o v) k).isSome = (alookup m k).isSome := by
  induction m with
  | nil => simp [aappendAt]
  | cons p rest ih =>
    obtain ⟨a, b⟩ := p
    by_cases ho : a = o
    · subst ho
      by_cases ha : a = k <;> simp [aappendAt, alookup, ha, ih]
    · by_cases ha : a = k
      · subst ha
        simp [aappendAt, alookup, ho, ih]
      · simp [aappendAt, alookup, ho, ha, ih]

theorem alookup_mem {β : Type} {m : List (Line × β)} {k : Line} {v : β}
    (h : alookup m k = some v) : (k, v) ∈ m := by
  induction m with
  | nil => simp [alookup] at h
  | cons p rest ih =>
    obtain ⟨a, b⟩ := p
    by_cases ha : a = k
    · subst ha
      simp [alookup] at h
      simp [h]
    · simp [alookup, ha] at h
      simp [ih h]

theorem mem_aset {β : Type} {m : List (Line × β)} {k : Line} {v : β} {p : Line × β}
    (h : p ∈ aset m k v) : p ∈ m ∨ p = (k, v) := by
  induction m with
  | nil => simp [aset] at h; simp [h]
  | cons q rest ih =>
    obtain ⟨a, b⟩ := q
    by_cases ha : a = k
    · subst ha
      simp [aset] at h
      rcases h with h | h
      · right; simp [h]
      · left; simp [h]
    · simp [aset, ha] at h
      rcases h with h | h
      · left; simp [h]
      · rcases ih h with h' | h'
        · left; simp [h']
        · right; exact h'

theorem alookup_joinOpts (m : RawOptions) (k : Line) :
    alookup (joinOpts m) k = (alookup m k).map joinVal := by
  induction m with
  | nil => simp [joinOpts, alookup]
  | cons p rest ih =>
    obtain ⟨a, b⟩ := p
    by_cases ha : a = k
    · simp [joinOpts, alookup, ha]
    · simpa [joinOpts, alookup, ha] using ih

theorem alookup_map_join (m : List (Line × RawOptions)) (k : Line) :
    alookup (m.map (fun p => (p.1, joinOpts p.2))) k =
      (alookup m k).map joinOpts := by
  induction m with
  | nil => simp [alookup]
  | cons p rest ih =>
    obtain ⟨a, b⟩ := p
    by_cases ha : a = k <;> simp [alookup, ha, ih]

/-! ### Claims about the descriptor builder and the script -/

/-- C7: for every version string v, the setup call produces a descriptor
whose version is v and whose every other field equals its fixed literal
value exactly, with exactly one console-script entry point, and building
twice from the same input yields equal descriptors. -/
theorem build_fixed_fields (v : String) :
    build v =
      { name := "stetho"
      , packages := ["stetho"]
      , version := v
      , description := "Scripting interface for the Stetho Android debugging bridge"
      , author := "Josh Guilfoyle"
      , author_email := "jasta@devtcg.org"
      , url := "https://github.com/facebook/stetho"
      , keywords := ["debug", "dumpapp", "android"]
      , classifiers :=
          [ "Development Status :: 5 - Production/Stable"
          , "Intended Audience :: Developers"
          , "Topic :: Software Development :: Debuggers"
          , "Topic :: Software Development :: Testing" ]
      , entry_points := [("console_scripts", ["dumpapp=stetho:dumpapp_main"])] } ∧
    build v = build v :=
  ⟨rfl, rfl⟩

/-- C2: for every version string without control characters the descriptor
carries the version verbatim: nothing between resolution and the version
field transforms it. -/
theorem build_version_verbatim (v : String)
    (h : ∀ c ∈ v.data, ¬ isControlChar c) : (build v).version = v :=
  rfl

/-- Witness for C2 at the concrete version 1.2.3. -/
theorem build_version_verbatim_witness : (build "1.2.3").version = "1.2.3" :=
  build_version_verbatim "1.2.3" (by decide)

/-- C4: with a missing properties file, resolution fails with FileNotFound
and the script terminates with that error: no descriptor is ever built. -/
theorem resolve_missing_file :
    resolve none = .error .fileNotFound ∧ script none = .error .fileNotFound :=
  ⟨rfl, rfl⟩

/-- C5: the properties file is looked up at exactly two directory levels
above the anchor directory (the canonical directory of the script's
resolved location), joined with gradle.properties, and the computation
never consults the current working directory. -/
theorem properties_path_two_up (cwd cwd' anchorDir : List String)
    (hcanon : ∀ c ∈ anchorDir, c ≠ ".." ∧ c ≠ ".")
    (hdepth : 2 ≤ anchorDir.length) :
    normalizePath (propertiesPathFrom cwd anchorDir) =
      anchorDir.dropLast.dropLast ++ ["gradle.properties"] ∧
    propertiesPathFrom cwd anchorDir = propertiesPathFrom cwd' anchorDir := by
  constructor
  · unfold normalizePath propertiesPathFrom
    rw [List.foldl_append]
    have hbase : ∀ (acc : List String) (comps : List String),
        (∀ c ∈ comps, c ≠ ".." ∧ c ≠ ".") → comps.foldl pathStep acc = acc ++ comps := by
      intro acc comps
      induction comps generalizing acc with
      | nil => intro _; simp
      | cons c cs ih =>
        intro hc
        have h1 := hc c (by simp)
        rw [List.foldl_cons]
        have hpc : pathStep acc c = acc ++ [c] := by simp [pathStep, h1.1, h1.2]
        rw [hpc, ih (acc ++ [c]) (fun b hb => hc b (by simp [hb]))]
        simp
    rw [hbase [] anchorDir hcanon]
    simp [pathStep]
  · rfl

/-- Witness for C5 at a concrete five-component anchor directory. -/
theorem properties_path_two_up_witness :
    normalizePath (propertiesPathFrom ["tmp"] ["home", "u", "stetho", "scripts", "dist"]) =
      ["home", "u", "stetho"] ++ ["gradle.properties"] ∧
    propertiesPathFrom ["tmp"] ["home", "u", "stetho", "scripts", "dist"] =
      propertiesPathFrom [] ["home", "u", "stetho", "scripts", "dist"] :=
  properties_path_two_up ["tmp"] [] ["home", "u", "stetho", "scripts", "dist"]
    (by decide) (by decide)

/-! ### The generic key/value option line -/

theorem rstrip_of_all_space {l : Line} (h : ∀ c ∈ l, c = ' ') :
    rstripChars l = [] := by
  unfold rstripChars
  rw [List.dropWhile_eq_nil_iff.mpr, List.reverse_nil]
  intro x hx
  rw [h x (List.mem_reverse.mp hx)]
  rfl

theorem curIndent_cons_nonspace {c : Char} (h : pySpace c = false) (l : Line) :
    curIndent (c :: l) = 0 := by
  simp [curIndent, List.findIdx?_cons, h]

theorem sectHeader?_cons_ne {c : Char} (h : ¬ c = '[') (l : Line) :
    sectHeader? (c :: l) = none := by
  simp [sectHeader?, h]

theorem rstrip_append_delim (X rest : Line) :
    rstripChars ((X ++ ['=']) ++ rest) = (X ++ ['=']) ++ rstripChars rest := by
  rw [rstrip_append]
  by_cases hr : rstripChars rest = []
  · rw [if_pos hr, hr, rstrip_append]
    rw [if_neg (by decide : ¬ rstripChars ['='] = [])]
    rw [show rstripChars ['='] = ['='] from by decide]
    simp
  · rw [if_neg hr]

theorem strip_keyval (key sp1 rest : Line) (hk : key ≠ [])
    (hkc : ∀ c ∈ key, pySpace c = false) :
    stripChars (key ++ sp1 ++ ['='] ++ rest) =
      key ++ sp1 ++ ['='] ++ rstripChars rest := by
  rcases key with _ | ⟨c, ks⟩
  · exact absurd rfl hk
  · have hc : pySpace c = false := hkc c (by simp)
    have h1 : ((c :: ks : Line) ++ sp1 ++ ['='] ++ rest) =
        c :: (ks ++ sp1 ++ ['='] ++ rest) := by simp
    have h2 : (c :: (ks ++ sp1 ++ ['='] ++ rest) : Line) =
        ((c :: (ks ++ sp1)) ++ ['=']) ++ rest := by simp
    have h3 : (((c :: (ks ++ sp1)) ++ ['=']) ++ rstripChars rest : Line) =
        (c :: ks : Line) ++ sp1 ++ ['='] ++ rstripChars rest := by simp
    unfold stripChars
    rw [h1, lstrip_cons_of_nonspace hc, h2, rstrip_append_delim, h3]

theorem lineValue_keyval (key sp1 rest : Line) (hk : key ≠ [])
    (hkc : ∀ c ∈ key, goodKeyChar c) :
    lineValue (key ++ sp1 ++ ['='] ++ rest) =
      key ++ sp1 ++ ['='] ++ rstripChars rest := by
  have hstrip := strip_keyval key sp1 rest hk (fun b hb => (hkc b hb).1)
  have hcomment : isCommentLine (key ++ sp1 ++ ['='] ++ rest) = false := by
    unfold isCommentLine
    rw [hstrip]
    rcases key with _ | ⟨c, ks⟩
    · exact absurd rfl hk
    · have hgc := hkc c (by simp)
      have h1 : ((c :: ks : Line) ++ sp1 ++ ['='] ++ rstripChars rest) =
          c :: (ks ++ sp1 ++ ['='] ++ rstripChars rest) := by simp
      rw [h1]
      simp [hgc.2.2.2.1, hgc.2.2.2.2]
  unfold lineValue
  rw [hcomment]
  simp only [Bool.false_eq_true, if_false]
  exact hstrip

/-- Processing a well-formed `key<spaces>=<rest>` line at indentation 0
always lands in readOptionLine on the stripped value. -/
theorem readLine_keyval_core (st : RState) (sect key sp1 rest : Line)
    (hcur : st.cursect = some sect) (hk : key ≠ [])
    (hkc : ∀ c ∈ key, goodKeyChar c) :
    readLine st (key ++ sp1 ++ ['='] ++ rest) =
      readOptionLine { st with indentLevel := 0 } sect
        (key ++ sp1 ++ ['='] ++ rstripChars rest) := by
  obtain ⟨secs, defs, cur, opt, ind, err⟩ := st
  simp only at hcur
  subst hcur
  rcases key with _ | ⟨c, ks⟩
  · exact absurd rfl hk
  · have hgc := hkc c (by simp)
    have hv := lineValue_keyval (c :: ks) sp1 rest (by simp) hkc
    have hci : curIndent ((c :: ks : Line) ++ sp1 ++ ['='] ++ rest) = 0 := by
      have h1 : ((c :: ks : Line) ++ sp1 ++ ['='] ++ rest) =
          c :: (ks ++ sp1 ++ ['='] ++ rest) := by simp
      rw [h1]
      exact curIndent_cons_nonspace hgc.1 _
    have hvne : ((c :: ks : Line) ++ sp1 ++ ['='] ++ rstripChars rest).isEmpty = false := by
      simp
    have hhdr : sectHeader? ((c :: ks : Line) ++ sp1 ++ ['='] ++ rstripChars rest) = none := by
      have h1 : ((c :: ks : Line) ++ sp1 ++ ['='] ++ rstripChars rest) =
          c :: (ks ++ sp1 ++ ['='] ++ rstripChars rest) := by simp
      rw [h1]
      exact sectHeader?_cons_ne hgc.2.2.1 _
    unfold readLine
    simp only [hv, hci, hvne, Bool.false_eq_true, if_false]
    rcases opt with _ | o
    · unfold readNonBlank
      rw [hhdr]
    · simp only [Nat.not_lt_zero, decide_False, Bool.and_false, Bool.false_eq_true, if_false]
      unfold readNonBlank
      rw [hhdr]

/-- A fresh well-formed key/value line stores the lowercased key with the
stripped value and records it as the current option. -/
theorem readLine_keyval (st : RState) (sect key sp1 rest : Line)
    (hcur : st.cursect = some sect) (hk : key ≠ [])
    (hkc : ∀ c ∈ key, goodKeyChar c) (hsp : ∀ c ∈ sp1, c = ' ')
    (hnew : alookup (stOpts st sect) (toLowerL key) = none) :
    readLine st (key ++ sp1 ++ ['='] ++ rest) =
      .ok { stPutOpts { st with indentLevel := 0 } sect
              (aset (stOpts st sect) (toLowerL key)
                [stripChars (lstripChars (rstripChars rest))]) with
            optname := some (toLowerL key)
          , errored := st.errored } := by
  rw [readLine_keyval_core st sect key sp1 rest hcur hk hkc]
  unfold readOptionLine
  have hsplit : splitOpt (key ++ sp1 ++ ['='] ++ rstripChars rest) =
      some (key ++ sp1, lstripChars (rstripChars rest)) := by
    rw [show (key ++ sp1 ++ ['='] ++ rstripChars rest) =
          ((key ++ sp1) ++ '=' :: rstripChars rest) by simp]
    exact splitOpt_append_delim
      (fun b hb => by
        rcases List.mem_append.mp hb with h | h
        · exact (hkc b h).2.1
        · rw [hsp b h]; rfl)
      (by decide) _
  rw [hsplit]
  have hrs : rstripChars (key ++ sp1) = key := by
    rw [rstrip_append, if_pos (rstrip_of_all_space hsp)]
    exact rstrip_of_all_nonspace (fun b hb => (hkc b hb).1)
  have hopts : stOpts { st with indentLevel := 0 } sect = stOpts st sect := by
    simp [stOpts]
  have hne : (key ++ sp1).isEmpty = false := by
    rcases key with _ | ⟨c, ks⟩
    · exact absurd rfl hk
    · simp
  simp only [hrs, hopts, hnew, Option.isSome_none, Bool.false_eq_true, if_false, hne,
    Bool.or_false]

/-- A well-formed key/value line whose lowercased key is already present in
the current section raises DuplicateOptionError. -/
theorem readLine_keyval_dup (st : RState) (sect key sp1 rest : Line)
    (hcur : st.cursect = some sect) (hk : key ≠ [])
    (hkc : ∀ c ∈ key, goodKeyChar c) (hsp : ∀ c ∈ sp1, c = ' ')
    (hdup : (alookup (stOpts st sect) (toLowerL key)).isSome = true) :
    readLine st (key ++ sp1 ++ ['='] ++ rest) = .error .duplicateOption := by
  rw [readLine_keyval_core st sect key sp1 rest hcur hk hkc]
  unfold readOptionLine
  have hsplit : splitOpt (key ++ sp1 ++ ['='] ++ rstripChars rest) =
      some (key ++ sp1, lstripChars (rstripChars rest)) := by
    rw [show (key ++ sp1 ++ ['='] ++ rstripChars rest) =
          ((key ++ sp1) ++ '=' :: rstripChars rest) by simp]
    exact splitOpt_append_delim
      (fun b hb => by
        rcases List.mem_append.mp hb with h | h
        · exact (hkc b h).2.1
        · rw [hsp b h]; rfl)
      (by decide) _
  rw [hsplit]
  have hrs : rstripChars (key ++ sp1) = key := by
    rw [rstrip_append, if_pos (rstrip_of_all_space hsp)]
    exact rstrip_of_all_nonspace (fun b hb => (hkc b hb).1)
  have hopts : stOpts { st with indentLevel := 0 } sect = stOpts st sect := by
    simp [stOpts]
  simp only [hrs, hopts, hdup, if_true]

theorem interpolate_no_percent (look : Line → Option Line) (fuel : Nat) (v : Line)
    (h : ∀ c ∈ v, ¬ c = '%') : interpolate look fuel v = .ok v := by
  induction v with
  | nil => rw [interpolate.eq_def]
  | cons c rest ih =>
    have hc : ¬ c = '%' := h c (by simp)
    rw [interpolate.eq_def]
    simp only [hc, if_false]
    rw [ih (fun b hb => h b (by simp [hb]))]
    rfl

/-! ### Claims about version resolution on key/value lines -/

/-- C1 counterexample: a properties file CONTAINING a line that assigns
VERSION_NAME the value 1.2.3 under no section header need not resolve to
1.2.3 — with the line present twice the strict reader raises
DuplicateOptionError instead of returning the value. -/
theorem resolve_version_line_not_universal :
    resolve (some ["VERSION_NAME = 1.2.3".toList, "VERSION_NAME = 1.2.3".toList]) =
      .error .duplicateOption := by
  decide

/-- C1 (amended): a properties file whose content is the single line
assigning VERSION_NAME the value 1.2.3 under no section header resolves to
exactly the string 1.2.3, for any amounts of whitespace around the equals
sign. -/
theorem resolve_single_version_line (n1 n2 : Nat) :
    resolve (some ["VERSION_NAME".toList ++ List.replicate n1 ' ' ++ ['='] ++
        (List.replicate n2 ' ' ++ "1.2.3".toList)]) = .ok "1.2.3".toList := by
  have hstep2 := readLine_keyval headerState propsSection "VERSION_NAME".toList
    (List.replicate n1 ' ') (List.replicate n2 ' ' ++ "1.2.3".toList)
    rfl (by decide) (by decide)
    (fun c hc => (List.mem_replicate.mp hc).2) (by decide)
  have hval : stripChars (lstripChars (rstripChars
      (List.replicate n2 ' ' ++ "1.2.3".toList))) = "1.2.3".toList := by
    rw [rstrip_append, if_neg (by decide : ¬ rstripChars "1.2.3".toList = [])]
    rw [show rstripChars "1.2.3".toList = "1.2.3".toList from by decide]
    rw [lstrip_replicate_space_append]
    decide
  rw [hval] at hstep2
  simp only [resolve, readFileLines]
  rw [readLines_cons, readLine_header]
  simp only []
  rw [readLines_cons, hstep2]
  show interpolate
      (chainLookup ⟨[(propsSection, [(versionKeyLower, "1.2.3".toList)])], []⟩ propsSection)
      MAXDEPTHFUEL "1.2.3".toList = .ok "1.2.3".toList
  exact interpolate_no_percent _ _ _ (by decide)

/-- C9: option-name lookup is case-insensitive — any spelling of the key
whose lowercasing is version_name makes the VERSION_NAME lookup succeed,
because names are lowercased both when stored and when looked up. -/
theorem resolve_key_case_insensitive (key : Line) (n1 n2 : Nat) (hk : key ≠ [])
    (hkc : ∀ c ∈ key, goodKeyChar c) (hlow : toLowerL key = versionKeyLower) :
    resolve (some [key ++ List.replicate n1 ' ' ++ ['='] ++
        (List.replicate n2 ' ' ++ "1.2.3".toList)]) = .ok "1.2.3".toList := by
  have hstep2 := readLine_keyval headerState propsSection key
    (List.replicate n1 ' ') (List.replicate n2 ' ' ++ "1.2.3".toList)
    rfl hk hkc (fun c hc => (List.mem_replicate.mp hc).2)
    (by rw [hlow]; decide)
  have hval : stripChars (lstripChars (rstripChars
      (List.replicate n2 ' ' ++ "1.2.3".toList))) = "1.2.3".toList := by
    rw [rstrip_append, if_neg (by decide : ¬ rstripChars "1.2.3".toList = [])]
    rw [show rstripChars "1.2.3".toList = "1.2.3".toList from by decide]
    rw [lstrip_replicate_space_append]
    decide
  rw [hval, hlow] at hstep2
  simp only [resolve, readFileLines]
  rw [readLines_cons, readLine_header]
  simp only []
  rw [readLines_cons, hstep2]
  show interpolate
      (chainLookup ⟨[(propsSection, [(versionKeyLower, "1.2.3".toList)])], []⟩ propsSection)
      MAXDEPTHFUEL "1.2.3".toList = .ok "1.2.3".toList
  exact interpolate_no_percent _ _ _ (by decide)

/-- Witness for C9: the key spelled Version_Name still resolves to 1.2.3. -/
theorem resolve_key_case_insensitive_witness :
    resolve (some ["Version_Name".toList ++ List.replicate 1 ' ' ++ ['='] ++
        (List.replicate 1 ' ' ++ "1.2.3".toList)]) = .ok "1.2.3".toList :=
  resolve_key_case_insensitive "Version_Name".toList 1 1 (by decide) (by decide) (by decide)

/-- C10: two lines assigning VERSION_NAME — whatever the two values — make
the strict reader fail with DuplicateOptionError during parsing; neither
value is returned. -/
theorem resolve_duplicate_key_rejected (v1 v2 : Line) :
    resolve (some ["VERSION_NAME".toList ++ ['='] ++ v1,
        "VERSION_NAME".toList ++ ['='] ++ v2]) = .error .duplicateOption := by
  have h1 : ("VERSION_NAME".toList ++ ['='] ++ v1 : Line) =
      "VERSION_NAME".toList ++ ([] : Line) ++ ['='] ++ v1 := by simp
  have h2 : ("VERSION_NAME".toList ++ ['='] ++ v2 : Line) =
      "VERSION_NAME".toList ++ ([] : Line) ++ ['='] ++ v2 := by simp
  have hstep2 := readLine_keyval headerState propsSection "VERSION_NAME".toList [] v1
    rfl (by decide) (by decide) (fun c hc => absurd hc (List.not_mem_nil c)) (by decide)
  have hstate : ({ stPutOpts { headerState with indentLevel := 0 } propsSection
        (aset (stOpts headerState propsSection) (toLowerL "VERSION_NAME".toList)
          [stripChars (lstripChars (rstripChars v1))]) with
        optname := some (toLowerL "VERSION_NAME".toList)
      , errored := headerState.errored } : RState) =
      ⟨[(propsSection, [(versionKeyLower, [stripChars (lstripChars (rstripChars v1))])])],
        [], some propsSection, some versionKeyLower, 0, false⟩ := rfl
  rw [hstate] at hstep2
  have hstep3 := readLine_keyval_dup
    ⟨[(propsSection, [(versionKeyLower, [stripChars (lstripChars (rstripChars v1))])])],
      [], some propsSection, some versionKeyLower, 0, false⟩
    propsSection "VERSION_NAME".toList [] v2
    rfl (by decide) (by decide) (fun c hc => absurd hc (List.not_mem_nil c)) rfl
  rw [h1, h2]
  simp only [resolve, readFileLines]
  rw [readLines_cons, readLine_header]
  simp only []
  rw [readLines_cons, hstep2]
  simp only []
  rw [readLines_cons, hstep3]

/-! ### Invariants of the line reader -/

theorem stPutOpts_cursect (st : RState) (sect : Line) (opts : RawOptions) :
    (stPutOpts st sect opts).cursect = st.cursect := by
  unfold stPutOpts
  split <;> rfl

theorem stPutOpts_errored (st : RState) (sect : Line) (opts : RawOptions) :
    (stPutOpts st sect opts).errored = st.errored := by
  unfold stPutOpts
  split <;> rfl

theorem stPutOpts_sections_isSome (st : RState) (sect : Line) (opts : RawOptions) (k : Line)
    (h : (alookup st.sections k).isSome = true) :
    (alookup (stPutOpts st sect opts).sections k).isSome = true := by
  unfold stPutOpts
  split
  · simpa using h
  · simp only [alookup_aset]
    split
    · rfl
    · simpa using h

theorem alookup_append_left {β : Type} {m m2 : List (Line × β)} {k : Line}
    (h : (alookup m k).isSome = true) : alookup (m ++ m2) k = alookup m k := by
  rw [alookup_append]
  rcases hm : alookup m k with _ | v
  · rw [hm] at h; simp at h
  · rfl

/-- Across a successfully read line: a sticky error flag stays set, an open
section stays open, and every section already present stays present. -/
theorem readLine_ok_invariants {st st' : RState} {l : Line}
    (h : readLine st l = .ok st') :
    (st.errored = true → st'.errored = true) ∧
    (st.cursect.isSome = true → st'.cursect.isSome = true) ∧
    (∀ k, (alookup st.sections k).isSome = true → (alookup st'.sections k).isSome = true) := by
  simp only [readLine, readNonBlank, readOptionLine] at h
  repeat' split at h
  all_goals first
    | exact Except.noConfusion h
    | (injection h with h2
       subst h2
       refine ⟨fun he => ?_, fun hc => ?_, fun k hk => ?_⟩ <;>
         first
          | assumption
          | rfl
          | simp [stPutOpts_errored, he]
          | simp [stPutOpts_cursect, hc]
          | exact stPutOpts_sections_isSome _ _ _ _ hk
          | simp [alookup_append_left hk, hk]
          | simp [stPutOpts_errored, stPutOpts_cursect, he, hc, hk,
              stPutOpts_sections_isSome _ _ _ _ hk])

/-- A failing line from a state with an open section is a strict duplicate
(option or section): MissingSectionHeaderError is unreachable. -/
theorem readLine_error_classify {st : RState} {l : Line} {e : CPError}
    (h : readLine st l = .error e) (hc : st.cursect.isSome = true) :
    e = .duplicateOption ∨ e = .duplicateSection := by
  simp only [readLine, readNonBlank, readOptionLine] at h
  repeat' split at h
  all_goals first
    | exact Except.noConfusion h
    | (rename_i heq
       rw [heq] at hc
       exact absurd hc (by simp))
    | (injection h with h2; subst h2; simp)
    | (injection h with h2; subst h2; exact Or.inl rfl)
    | (injection h with h2; subst h2; exact Or.inr rfl)
    | simp_all

/-! ### No stored version_name key: preservation through the reader -/

theorem NoVK_same_maps {st : RState} (hn : NoVK st) {st' : RState}
    (hs : st'.sections = st.sections) (hd : st'.defaults = st.defaults) : NoVK st' := by
  obtain ⟨h1, h2⟩ := hn
  exact ⟨by rw [hs]; exact h1, by rw [hd]; exact h2⟩

theorem NoVK_stOpts {st : RState} (hn : NoVK st) (sect : Line) :
    alookup (stOpts st sect) versionKeyLower = none := by
  obtain ⟨hs, hd⟩ := hn
  unfold stOpts
  split
  · exact hd
  · cases hsec : alookup st.sections sect with
    | none => rfl
    | some opts =>
      simp only [Option.getD_some]
      exact hs (sect, opts) (alookup_mem hsec)

theorem NoVK_stPutOpts {st : RState} {sect : Line} {opts : RawOptions}
    (hn : NoVK st) (ho : alookup opts versionKeyLower = none) :
    NoVK (stPutOpts st sect opts) := by
  obtain ⟨hs, hd⟩ := hn
  unfold stPutOpts
  split
  · exact ⟨by simpa using hs, by simpa using ho⟩
  · refine ⟨?_, by simpa using hd⟩
    intro p hp
    rcases mem_aset (by simpa using hp) with h | h
    · exact hs p h
    · subst h
      exact ho

theorem readOptionLine_preserves_NoVK {st st' : RState} {sect value : Line}
    (h : readOptionLine st sect value = .ok st') (hn : NoVK st)
    (hkey : ∀ o v, splitOpt value = some (o, v) →
      toLowerL (rstripChars o) ≠ versionKeyLower) :
    NoVK st' := by
  cases hsp : splitOpt value with
  | none =>
    simp only [readOptionLine, hsp] at h
    injection h with h2
    subst h2
    exact NoVK_same_maps hn rfl rfl
  | some p =>
    obtain ⟨o, v⟩ := p
    simp only [readOptionLine, hsp] at h
    split at h
    · exact Except.noConfusion h
    · injection h with h2
      subst h2
      refine NoVK_same_maps ?_ rfl rfl
      apply NoVK_stPutOpts hn
      rw [alookup_aset, if_neg (hkey o v hsp)]
      exact NoVK_stOpts hn sect

theorem readNonBlank_preserves_NoVK {st st' : RState} {value : Line}
    (h : readNonBlank st value = .ok st') (hn : NoVK st)
    (hkey : sectHeader? value = none → ∀ o v, splitOpt value = some (o, v) →
      toLowerL (rstripChars o) ≠ versionKeyLower) :
    NoVK st' := by
  cases hh : sectHeader? value with
  | some hd =>
    simp only [readNonBlank, hh] at h
    split at h
    · exact Except.noConfusion h
    · split at h
      · injection h with h2
        subst h2
        exact NoVK_same_maps hn rfl rfl
      · injection h with h2
        subst h2
        constructor
        · intro p hp
          have hp' : p ∈ st.sections ∨ p = (hd, []) := by simpa using hp
          rcases hp' with hmem | hmem
          · exact hn.1 p hmem
          · subst hmem
            rfl
        · simpa using hn.2
  | none =>
    cases hcur : st.cursect with
    | none =>
      simp only [readNonBlank, hh, hcur] at h
      exact Except.noConfusion h
    | some sect =>
      simp only [readNonBlank, hh, hcur] at h
      exact readOptionLine_preserves_NoVK h hn (hkey hh)

theorem NoVK_indent {st : RState} (hn : NoVK st) (n : Nat) :
    NoVK { st with indentLevel := n } :=
  NoVK_same_maps hn rfl rfl

theorem readLine_preserves_NoVK {st st' : RState} {l : Line}
    (h : readLine st l = .ok st') (hn : NoVK st)
    (hkey : lineAssignedKey l ≠ some versionKeyLower) : NoVK st' := by
  simp only [readLine] at h
  by_cases hvne : (lineValue l).isEmpty = true
  · rw [if_pos hvne] at h
    have hblank : ∀ (st2 : RState),
        (Except.ok st2 : Except CPError RState) = Except.ok st' → NoVK st2 → NoVK st' := by
      intro st2 he hn2
      injection he with h2
      subst h2
      exact hn2
    cases hcur : st.cursect with
    | none =>
      simp only [hcur] at h
      exact hblank st h hn
    | some sect =>
      cases hopt : st.optname with
      | none =>
        simp only [hcur, hopt] at h
        exact hblank st h hn
      | some o =>
        simp only [hcur, hopt] at h
        split at h
        · refine hblank _ h (NoVK_stPutOpts hn ?_)
          exact alookup_aappendAt_none _ (NoVK_stOpts hn sect)
        · exact hblank st h hn
  · rw [if_neg hvne] at h
    have hkeyH : sectHeader? (lineValue l) = none → ∀ o v,
        splitOpt (lineValue l) = some (o, v) →
        toLowerL (rstripChars o) ≠ versionKeyLower := by
      intro hh o v hsp heq
      apply hkey
      unfold lineAssignedKey
      simp only [hvne, hh, hsp, Option.isSome_none, Bool.false_eq_true, if_false]
      rw [heq]
    cases hcur : st.cursect with
    | none =>
      simp only [hcur] at h
      exact readNonBlank_preserves_NoVK h (NoVK_same_maps hn rfl rfl) hkeyH
    | some sect =>
      cases hopt : st.optname with
      | none =>
        simp only [hcur, hopt] at h
        exact readNonBlank_preserves_NoVK h (NoVK_same_maps hn rfl rfl) hkeyH
      | some o =>
        simp only [hcur, hopt] at h
        split at h
        · injection h with h2
          subst h2
          refine NoVK_stPutOpts hn ?_
          exact alookup_aappendAt_none _ (NoVK_stOpts hn sect)
        · exact readNonBlank_preserves_NoVK h (NoVK_same_maps hn rfl rfl) hkeyH

theorem readLines_preserves_NoVK {st st' : RState} {ls : List Line}
    (h : readLines st ls = .ok st') (hn : NoVK st)
    (hkey : ∀ l ∈ ls, lineAssignedKey l ≠ some versionKeyLower) : NoVK st' := by
  induction ls generalizing st with
  | nil =>
    injection h with h2
    subst h2
    exact hn
  | cons l rest ih =>
    rw [readLines_cons] at h
    cases hl : readLine st l with
    | error e =>
      rw [hl] at h
      exact Except.noConfusion h
    | ok st2 =>
      rw [hl] at h
      exact ih h (readLine_preserves_NoVK hl hn (hkey l (by simp)))
        (fun b hb => hkey b (by simp [hb]))

/-! ### Claims C3, C6 and C8 -/

theorem readLines_cons_ok {st st2 : RState} {l : Line}
    (h : readLine st l = .ok st2) (rest : List Line) :
    readLines st (l :: rest) = readLines st2 rest := by
  rw [readLines_cons, h]

theorem readLines_append (st : RState) (xs ys : List Line) :
    readLines st (xs ++ ys) =
      match readLines st xs with
      | .ok st2 => readLines st2 ys
      | .error e => .error e := by
  induction xs generalizing st with
  | nil => rfl
  | cons l rest ih =>
    rw [List.cons_append, readLines_cons, readLines_cons]
    cases hl : readLine st l with
    | error e => rfl
    | ok st2 => exact ih st2

/-- The single-line invariants lifted over the whole read loop. -/
theorem readLines_ok_invariants {st st' : RState} {ls : List Line}
    (h : readLines st ls = .ok st') :
    (st.errored = true → st'.errored = true) ∧
    (st.cursect.isSome = true → st'.cursect.isSome = true) ∧
    (∀ k, (alookup st.sections k).isSome = true → (alookup st'.sections k).isSome = true) := by
  induction ls generalizing st with
  | nil =>
    injection h with h2
    subst h2
    exact ⟨fun x => x, fun x => x, fun k x => x⟩
  | cons l rest ih =>
    rw [readLines_cons] at h
    cases hl : readLine st l with
    | error e =>
      rw [hl] at h
      exact Except.noConfusion h
    | ok st2 =>
      rw [hl] at h
      obtain ⟨e1, c1, s1⟩ := readLine_ok_invariants hl
      obtain ⟨e2, c2, s2⟩ := ih h
      exact ⟨fun he => e2 (e1 he), fun hc => c2 (c1 hc), fun k hk => s2 k (s1 k hk)⟩

/-- A failing read loop from a state with an open section fails with a
strict duplicate error. -/
theorem readLines_error_classify {st : RState} {ls : List Line} {e : CPError}
    (h : readLines st ls = .error e) (hc : st.cursect.isSome = true) :
    e = .duplicateOption ∨ e = .duplicateSection := by
  induction ls generalizing st with
  | nil => exact Except.noConfusion h
  | cons l rest ih =>
    rw [readLines_cons] at h
    cases hl : readLine st l with
    | error e2 =>
      rw [hl] at h
      injection h with h2
      subst h2
      exact readLine_error_classify hl hc
    | ok st2 =>
      rw [hl] at h
      exact ih h ((readLine_ok_invariants hl).2.1 hc)

theorem readFileLines_of_ok {ls : List Line} {stf : RState}
    (h : readLines initState ls = .ok stf) :
    readFileLines ls =
      if stf.errored = true then .error .parsingError
      else .ok ⟨stf.sections.map (fun p => (p.1, joinOpts p.2)), joinOpts stf.defaults⟩ := by
  simp only [readFileLines, h]

theorem readFileLines_of_error {ls : List Line} {e : CPError}
    (h : readLines initState ls = .error e) : readFileLines ls = .error e := by
  simp only [readFileLines, h]

/-- config[properties][VERSION_NAME] raises KeyError when no section and no
default stores a version_name entry. -/
theorem sectionGet_no_key {cfg : Config}
    (hs : ∀ p ∈ cfg.sections, alookup p.2 versionKeyLower = none)
    (hd : alookup cfg.defaults versionKeyLower = none) :
    sectionGet cfg propsSection versionOpt = .error .keyError := by
  simp only [sectionGet]
  split
  · rfl
  · have hlow : toLowerL versionOpt = versionKeyLower := by decide
    have hhas : hasOpt cfg propsSection (toLowerL versionOpt) = false := by
      rw [hlow]
      unfold hasOpt
      rw [if_neg (by decide : ¬ propsSection = DEFAULTSECT)]
      cases hsec : alookup cfg.sections propsSection with
      | none => rfl
      | some opts =>
        simp only []
        rw [hs (propsSection, opts) (alookup_mem hsec), hd]
        rfl
    rw [hhas]
    simp only [Bool.false_eq_true, if_false]

/-- C3: a file that exists and parses but assigns no VERSION_NAME key (in
any letter case, under any section) makes resolve fail with KeyError: no
default and no empty string is returned. -/
theorem resolve_missing_key (lines : List Line) (cfg : Config)
    (hp : readFileLines (propsHeader :: lines) = .ok cfg)
    (hkey : ∀ l ∈ lines, lineAssignedKey l ≠ some versionKeyLower) :
    resolve (some lines) = .error .keyError := by
  have hres : resolve (some lines) = sectionGet cfg propsSection versionOpt := by
    simp only [resolve]
    rw [hp]
  rw [hres]
  cases hls : readLines initState (propsHeader :: lines) with
  | error e =>
    rw [readFileLines_of_error hls] at hp
    exact Except.noConfusion hp
  | ok stf =>
    rw [readFileLines_of_ok hls] at hp
    split at hp
    · exact Except.noConfusion hp
    · injection hp with h2
      rw [readLines_cons_ok readLine_header] at hls
      have hnovk : NoVK stf := readLines_preserves_NoVK hls
        ⟨by
          intro p hp2
          simp only [headerState, List.mem_singleton] at hp2
          rw [hp2]
          rfl,
         rfl⟩ hkey
      apply sectionGet_no_key
      · intro p hp2
        rw [← h2] at hp2
        simp only [List.mem_map] at hp2
        obtain ⟨q, hq, hpq⟩ := hp2
        rw [← hpq]
        simp only []
        rw [alookup_joinOpts, hnovk.1 q hq]
        rfl
      · rw [← h2]
        simp only []
        rw [alookup_joinOpts, hnovk.2]
        rfl

/-- Witness for C3: a one-line file assigning only OTHER_KEY. -/
theorem resolve_missing_key_witness :
    resolve (some ["OTHER_KEY=1".toList]) = .error .keyError :=
  resolve_missing_key ["OTHER_KEY=1".toList]
    ⟨[(propsSection, [("other_key".toList, "1".toList)])], []⟩
    (by decide) (by decide)

/-- C6: the flat file is parsed by prepending the synthesized section
header, the parsed configuration always carries the properties section,
and the resolved value is exactly the config[properties][VERSION_NAME]
lookup on that configuration. -/
theorem resolve_via_synthesized_section (lines : List Line) (cfg : Config)
    (hp : readFileLines (propsHeader :: lines) = .ok cfg) :
    (alookup cfg.sections propsSection).isSome = true ∧
    resolve (some lines) = sectionGet cfg propsSection versionOpt := by
  constructor
  · cases hls : readLines initState (propsHeader :: lines) with
    | error e =>
      rw [readFileLines_of_error hls] at hp
      exact Except.noConfusion hp
    | ok stf =>
      rw [readFileLines_of_ok hls] at hp
      split at hp
      · exact Except.noConfusion hp
      · injection hp with h2
        rw [readLines_cons_ok readLine_header] at hls
        have hpres := (readLines_ok_invariants hls).2.2 propsSection (by decide)
        rw [← h2]
        simp only []
        rw [alookup_map_join]
        cases hsec : alookup stf.sections propsSection with
        | none =>
          rw [hsec] at hpres
          simp at hpres
        | some opts => simp
  · simp only [resolve]
    rw [hp]

/-- Witness for C6 on the one-line file VERSION_NAME=1.2.3. -/
theorem resolve_via_synthesized_section_witness :
    (alookup (⟨[(propsSection, [(versionKeyLower, "1.2.3".toList)])], []⟩ : Config).sections
        propsSection).isSome = true ∧
    resolve (some ["VERSION_NAME=1.2.3".toList]) =
      sectionGet ⟨[(propsSection, [(versionKeyLower, "1.2.3".toList)])], []⟩
        propsSection versionOpt :=
  resolve_via_synthesized_section ["VERSION_NAME=1.2.3".toList] _ (by decide)

/-- The reader flags a non-blank, non-comment, non-header, delimiterless
line at indentation 0 and continues with the sticky error set. -/
theorem readLine_badLine {st : RState} {sect l : Line}
    (hb : badLine l) (hc : st.cursect = some sect) :
    readLine st l = .ok { st with indentLevel := 0, errored := true } := by
  obtain ⟨hv, hci, hhdr, hsplit⟩ := hb
  have hvne : (lineValue l).isEmpty = false := by
    cases hlv : lineValue l with
    | nil => exact absurd hlv hv
    | cons c cs => rfl
  obtain ⟨secs, defs, cur, opt, ind, err⟩ := st
  simp only at hc
  subst hc
  simp only [readLine, hci]
  rw [if_neg (by rw [hvne]; exact Bool.false_ne_true)]
  rcases opt with _ | o
  · simp only [readNonBlank, hhdr, readOptionLine, hsplit]
  · simp only [Nat.not_lt_zero, decide_False, Bool.and_false, Bool.false_eq_true, if_false]
    simp only [readNonBlank, hhdr, readOptionLine, hsplit]

/-- C8 (amended): a line that is not blank, not a comment, not a section
header, not an indented continuation and has no key/value delimiter makes
resolve fail; the failure is ParsingError unless a strict duplicate error
fires first. -/
theorem resolve_bad_line_fails (lines : List Line) (l : Line)
    (hmem : l ∈ lines) (hb : badLine l) :
    resolve (some lines) = .error .parsingError ∨
    resolve (some lines) = .error .duplicateOption ∨
    resolve (some lines) = .error .duplicateSection := by
  obtain ⟨pre, post, rfl⟩ := List.append_of_mem hmem
  have hstart : readLines initState (propsHeader :: (pre ++ l :: post)) =
      readLines headerState (pre ++ l :: post) := readLines_cons_ok readLine_header _
  cases hpre : readLines headerState pre with
  | error e =>
    have hall : readLines headerState (pre ++ l :: post) = .error e := by
      rw [readLines_append, hpre]
    have hres : resolve (some (pre ++ l :: post)) = .error e := by
      simp only [resolve, readFileLines, hstart, hall]
    rcases readLines_error_classify hpre rfl with h | h
    · right; left; rw [hres, h]
    · right; right; rw [hres, h]
  | ok stm =>
    have hcm : stm.cursect.isSome = true := (readLines_ok_invariants hpre).2.1 rfl
    obtain ⟨sectm, hsectm⟩ := Option.isSome_iff_exists.mp hcm
    have hstep := readLine_badLine hb hsectm
    have hmid : readLines headerState (pre ++ l :: post) =
        readLines { stm with indentLevel := 0, errored := true } post := by
      rw [readLines_append, hpre]
      show readLines stm (l :: post) = _
      rw [readLines_cons, hstep]
    cases hpost : readLines { stm with indentLevel := 0, errored := true } post with
    | error e2 =>
      have hres : resolve (some (pre ++ l :: post)) = .error e2 := by
        simp only [resolve, readFileLines, hstart, hmid, hpost]
      rcases readLines_error_classify hpost (by simp [hsectm]) with h | h
      · right; left; rw [hres, h]
      · right; right; rw [hres, h]
    | ok stf =>
      have herr : stf.errored = true := (readLines_ok_invariants hpost).1 rfl
      left
      simp only [resolve, readFileLines, hstart, hmid, hpost, herr, if_true]

/-- Witness for C8 (amended): the delimiterless line VERSION_NAME alone. -/
theorem resolve_bad_line_fails_witness :
    resolve (some ["VERSION_NAME".toList]) = .error .parsingError ∨
    resolve (some ["VERSION_NAME".toList]) = .error .duplicateOption ∨
    resolve (some ["VERSION_NAME".toList]) = .error .duplicateSection :=
  resolve_bad_line_fails ["VERSION_NAME".toList] "VERSION_NAME".toList
    (by decide) (by decide)

/-- C8 counterexample: a comment line is not a well-formed key = value pair
(the option matcher rejects it), yet the file parses and resolves without
any ParseError. -/
theorem parse_error_not_for_every_malformed_line :
    splitOpt (stripChars "# build metadata".toList) = none ∧
    resolve (some ["# build metadata".toList, "VERSION_NAME=1.2.3".toList]) =
      .ok "1.2.3".toList := by
  constructor
  · decide
  · show interpolate
        (chainLookup ⟨[(propsSection, [(versionKeyLower, "1.2.3".toList)])], []⟩ propsSection)
        MAXDEPTHFUEL "1.2.3".toList = .ok "1.2.3".toList
    exact interpolate_no_percent _ _ _ (by decide)

end Stetho
